import Mathlib

/-!
Shallow embedding of `netlify/functions/proxy_go.ts`, a Netlify Edge Function that
reverse-proxies requests to `https://generativelanguage.googleapis.com`.

Modelling conventions:
* A Fetch-API `Headers` object is modelled as an association list
  `List (String × String)`.  The Fetch API normalises header names to lower case
  and iterates `keys()` in sorted order with unique names; a `Headers` value in
  that normal form satisfies `HeadersWF` below.  The operations `hGet`, `hSet`,
  `hDelete` model `Headers.prototype.get/set/delete` (names at the call sites in
  the source are already lower case).
* A URL is modelled by its `pathname` and its ordered multi-list of decoded
  query parameters (`URLSearchParams` preserves insertion order and repeats).
* A body stream is a list of byte chunks (`List (List Nat)`, each byte < 256 is
  irrelevant to the claims, so bytes are plain `Nat`).
* `fetch` and `new URL(request.url)` can fail; the handler embeds them as an
  `Except`-valued function argument and an `Option`-valued parse result, and the
  handler itself returns `Except ProxyErr OutResponse` (an uncaught exception in
  the JS source is an `Except.error`).
-/

/-- `headers.get name` on a normalised header list: first value whose name matches. -/
def hGet : List (String × String) → String → Option String
  | [], _ => none
  | p :: t, n => if n = p.1 then some p.2 else hGet t n

/-- `headers.delete name`: removes every entry with that name. -/
def hDelete : List (String × String) → String → List (String × String)
  | [], _ => []
  | p :: t, n => if p.1 = n then hDelete t n else p :: hDelete t n

/-- `headers.set name value`: replaces the first entry with that name (dropping any
later duplicates), or appends if the name is absent. -/
def hSet : List (String × String) → String → String → List (String × String)
  | [], n, v => [(n, v)]
  | p :: t, n, v => if p.1 = n then (n, v) :: hDelete t n else p :: hSet t n v

/-- Strict order on header names: lexicographic on the character list.  `Headers`
iteration (`keys()`, spreading) is sorted by name. -/
def keyLt (a b : String) : Prop :=
  a.toList < b.toList

instance (a b : String) : Decidable (keyLt a b) :=
  inferInstanceAs (Decidable (a.toList < b.toList))

/-- Header names are normalised to lower case by the Fetch API. -/
def lowerName (n : String) : Prop :=
  ∀ c ∈ n.toList, c.isUpper = false

instance (n : String) : Decidable (lowerName n) :=
  inferInstanceAs (Decidable (∀ c ∈ n.toList, c.isUpper = false))

/-- Names strictly sorted (hence unique): the iteration normal form of `Headers`. -/
def SortedKeys (h : List (String × String)) : Prop :=
  List.Pairwise (fun a b : String × String => keyLt a.1 b.1) h

/-- Well-formed `Headers` state: names sorted strictly (hence unique) and all lower
case, as produced by the Fetch API's normalisation of header names. -/
def HeadersWF (h : List (String × String)) : Prop :=
  SortedKeys h ∧ ∀ p ∈ h, lowerName p.1

instance : DecidablePred SortedKeys := fun h =>
  inferInstanceAs (Decidable (List.Pairwise _ h))

instance : DecidablePred HeadersWF := fun h =>
  inferInstanceAs (Decidable (SortedKeys h ∧ ∀ p ∈ h, lowerName p.1))

/-- One step of the loop body of `pickHeaders` (lines 13–20 of the source): test the
current key of `headers.keys()` against the allow-list, `get` its value from the
original headers and `set` it on the accumulator. -/
def pickStep (headers : List (String × String)) (keys : List String)
    (picked : List (String × String)) (p : String × String) : List (String × String) :=
  if keys.any (fun k => k == p.1) then
    match hGet headers p.1 with
    | some value => hSet picked p.1 value
    | none => picked
  else picked

/-- `pickHeaders(headers, keys)` from the source: build a fresh `Headers` holding the
entries of `headers` whose key occurs in `keys`.  The source accepts strings or
regular expressions in `keys`; the only call site passes strings, which is the case
embedded here. -/
def pickHeaders (headers : List (String × String)) (keys : List String) :
    List (String × String) :=
  headers.foldl (pickStep headers keys) []

/-- `CORS_HEADERS` constant from the source, in source order. -/
def CORS_HEADERS : List (String × String) :=
  [("access-control-allow-origin", "*"),
   ("access-control-allow-methods", "GET, POST, PUT, DELETE, OPTIONS"),
   ("access-control-allow-headers", "Content-Type, Authorization, x-goog-api-key, x-goog-api-client")]

/-- The allow-list passed to `pickHeaders` at line 84 of the source. -/
def allowKeys : List String :=
  ["content-type", "x-goog-api-client", "x-goog-api-key", "authorization"]

/-- The parsed inbound URL: `const { pathname, searchParams } = new URL(request.url)`. -/
structure ParsedURL where
  pathname : String
  searchParams : List (String × String)
  deriving DecidableEq

/-- An inbound request.  `urlParse` is the (fallible) result of `new URL(request.url)`. -/
structure InRequest where
  method : String
  urlParse : Option ParsedURL
  headers : List (String × String)
  body : Option (List (List Nat))
  deriving DecidableEq

/-- The target URL under construction (a WHATWG `URL` restricted to the fields the
handler touches). -/
structure TargetURL where
  origin : String
  pathname : String
  query : List (String × String)
  deriving DecidableEq

/-- Loop body of `searchParams.forEach` (lines 76–81): append every parameter except
the Netlify-internal `_path` to the target URL's search params. -/
def appendParam (url : TargetURL) (p : String × String) : TargetURL :=
  if p.1 ≠ "_path" then { url with query := url.query ++ [p] } else url

/-- Lines 73–81: `new URL(pathname, "https://generativelanguage.googleapis.com")`
followed by the `searchParams.forEach` copy loop. -/
def targetUrl (pathname : String) (searchParams : List (String × String)) : TargetURL :=
  searchParams.foldl appendParam
    { origin := "https://generativelanguage.googleapis.com", pathname := pathname, query := [] }

/-- The outbound request descriptor handed to `fetch` (lines 92–96). -/
structure OutboundRequest where
  url : TargetURL
  method : String
  headers : List (String × String)
  body : Option (List (List Nat))
  deriving DecidableEq

/-- The upstream (`googleResponse`) as the handler observes it. -/
structure UpstreamResponse where
  status : Nat
  statusText : String
  headers : List (String × String)
  body : Option (List (List Nat))
  deriving DecidableEq

/-- A response body: the static HTML page is a text body, a proxied body is a chunk
stream. -/
inductive RespBody where
  | text (s : String)
  | stream (chunks : List (List Nat))
  deriving DecidableEq

/-- The outbound `Response` descriptor.  A `Response` constructed without an explicit
status has status 200 and empty status text. -/
structure OutResponse where
  status : Nat
  statusText : String
  headers : List (String × String)
  body : Option RespBody
  deriving DecidableEq

/-- Failure modes of the handler: `new URL(request.url)` throwing, or `fetch`
rejecting.  Neither is caught in the source. -/
inductive ProxyErr where
  | urlParse
  | fetch (e : String)
  deriving DecidableEq

/-- The `TransformStream` of line 125: an identity transform; chunks written to the
writable side are queued for the readable side unchanged and in order. -/
structure TransformStream where
  queue : List (List Nat)
  deriving DecidableEq

def tsWrite (s : TransformStream) (chunk : List Nat) : TransformStream :=
  ⟨s.queue ++ [chunk]⟩

/-- `googleResponse.body.pipeTo(writable)` (line 126): write every upstream chunk,
in order, to the writable side. -/
def pipeTo (body : List (List Nat)) (s : TransformStream) : TransformStream :=
  body.foldl tsWrite s

/-- Reading the readable side to completion yields the queued chunks in order. -/
def readAllChunks (s : TransformStream) : List (List Nat) :=
  s.queue

/-- The chunk sequence the client reads from the relayed body. -/
def relayBody (body : List (List Nat)) : List (List Nat) :=
  readAllChunks (pipeTo body ⟨[]⟩)

/-- Lines 101–112: copy `googleResponse.headers`, `set` the three CORS headers, then
`delete` `content-encoding`, `content-length` and `alt-svc`. -/
def relayHeaders (upstream : List (String × String)) : List (String × String) :=
  let responseHeaders := upstream
  let responseHeaders := CORS_HEADERS.foldl (fun h p => hSet h p.1 p.2) responseHeaders
  let responseHeaders := hDelete responseHeaders "content-encoding"
  let responseHeaders := hDelete responseHeaders "content-length"
  hDelete responseHeaders "alt-svc"

/-- Lines 101–133: build the outbound response from `googleResponse` (headers-only
when the upstream body is absent, a pass-through stream otherwise; status and
status text copied in both branches). -/
def relayResponse (googleResponse : UpstreamResponse) : OutResponse :=
  let responseHeaders := relayHeaders googleResponse.headers
  match googleResponse.body with
  | none =>
      { status := googleResponse.status, statusText := googleResponse.statusText,
        headers := responseHeaders, body := none }
  | some b =>
      { status := googleResponse.status, statusText := googleResponse.statusText,
        headers := responseHeaders, body := some (RespBody.stream (relayBody b)) }

/-- Lines 39–44: the OPTIONS preflight response: `new Response(null, { status: 204,
headers: CORS_HEADERS })`. -/
def preflightResponse : OutResponse :=
  { status := 204, statusText := "", headers := CORS_HEADERS, body := none }

/-- The `blank_html` template literal (lines 50–63), verbatim including the leading
newline and trailing indentation of the template literal. -/
def blank_html : String :=
  "\n<!DOCTYPE html>\n<html>\n<head>\n  <meta charset=\"UTF-8\">\n  <title>Google PaLM/Gemini API Proxy on Netlify Edge</title>\n</head>\n<body>\n  <h1>Google PaLM/Gemini API Proxy on Netlify Edge</h1>\n  <p>This is a proxy for the Google Generative Language API, deployed on Netlify Edge Functions.</p>\n  <p>For technical details, please visit <a href=\"https://simonmy.com/posts/使用netlify反向代理google-palm-api.html\">https://simonmy.com/posts/使用netlify反向代理google-palm-api.html</a></p>\n</body>\n</html>\n    "

/-- Lines 64–69: the root-path response: `new Response(blank_html, { headers:
{ ...CORS_HEADERS, "content-type": "text/html;charset=UTF-8" } })` (status defaults
to 200). -/
def rootResponse : OutResponse :=
  { status := 200, statusText := "",
    headers := CORS_HEADERS ++ [("content-type", "text/html;charset=UTF-8")],
    body := some (RespBody.text blank_html) }

/-- Lines 84–96: the outbound request: target URL, the allow-listed headers, and the
inbound method and body passed through. -/
def outboundOf (request : InRequest) (u : ParsedURL) : OutboundRequest :=
  { url := targetUrl u.pathname u.searchParams,
    method := request.method,
    headers := pickHeaders request.headers allowKeys,
    body := request.body }

/-- The default-exported handler (lines 36–133).  `fetchFn` is the ambient `fetch`;
its failure (`Except.error`) models a rejected fetch promise, which the handler does
not catch. -/
def handler (request : InRequest)
    (fetchFn : OutboundRequest → Except String UpstreamResponse) :
    Except ProxyErr OutResponse :=
  if request.method = "OPTIONS" then
    Except.ok preflightResponse
  else
    match request.urlParse with
    | none => Except.error ProxyErr.urlParse
    | some u =>
      if u.pathname = "/" then
        Except.ok rootResponse
      else
        match fetchFn (outboundOf request u) with
        | Except.error e => Except.error (ProxyErr.fetch e)
        | Except.ok googleResponse => Except.ok (relayResponse googleResponse)

/-- The four terminal outcomes of §4.4's per-request state machine. -/
inductive Outcome where
  | preflight
  | rootPage
  | headersOnly
  | streamed
  deriving DecidableEq

/-- The state machine's outcome for a given invocation, mirroring the handler's
guard structure; `none` when the invocation fails instead of terminating. -/
def classifyRun (request : InRequest)
    (fetchFn : OutboundRequest → Except String UpstreamResponse) : Option Outcome :=
  if request.method = "OPTIONS" then some Outcome.preflight
  else
    match request.urlParse with
    | none => none
    | some u =>
      if u.pathname = "/" then some Outcome.rootPage
      else
        match fetchFn (outboundOf request u) with
        | Except.error _ => none
        | Except.ok googleResponse =>
          match googleResponse.body with
          | none => some Outcome.headersOnly
          | some _ => some Outcome.streamed

/-- Decidable substring test used to state that the static page contains the
advertised title text. -/
def listContainsSub (pat : List Char) : List Char → Bool
  | [] => pat.isEmpty
  | c :: t => pat.isPrefixOf (c :: t) || listContainsSub pat t

/-! Concrete sample values used by the witness theorems. -/

def sampleURL : ParsedURL :=
  { pathname := "/v1beta/models/gemini-pro:generateContent",
    searchParams := [("foo", "1"), ("_path", "internal"), ("bar", "2"), ("foo", "3")] }

def sampleHeaders : List (String × String) :=
  [("content-type", "application/json"), ("cookie", "a=b"), ("x-goog-api-key", "k1")]

def sampleRequest : InRequest :=
  { method := "POST", urlParse := some sampleURL, headers := sampleHeaders,
    body := some [[1, 2]] }

def sampleRequest2 : InRequest :=
  { method := "POST", urlParse := some sampleURL,
    headers := [("content-type", "application/json"), ("user-agent", "curl/8"),
                ("x-goog-api-key", "k1")],
    body := some [[1, 2]] }

def optionsRequest : InRequest :=
  { method := "OPTIONS", urlParse := some sampleURL, headers := sampleHeaders, body := none }

def rootRequest : InRequest :=
  { method := "GET", urlParse := some { pathname := "/", searchParams := [] },
    headers := [], body := none }

def badUrlRequest : InRequest :=
  { method := "GET", urlParse := none, headers := [], body := none }

def sampleUpstream : UpstreamResponse :=
  { status := 404, statusText := "Not Found",
    headers := [("alt-svc", "h3=later"), ("content-encoding", "gzip"),
                ("content-length", "123"), ("x-custom", "keep")],
    body := some [[104, 105], [33]] }

def sampleUpstreamNoBody : UpstreamResponse :=
  { status := 500, statusText := "Internal Server Error",
    headers := [("x-custom", "keep")], body := none }

def sampleFetch : OutboundRequest → Except String UpstreamResponse :=
  fun _ => Except.ok sampleUpstream

def sampleFetchNoBody : OutboundRequest → Except String UpstreamResponse :=
  fun _ => Except.ok sampleUpstreamNoBody

def sampleFetchFail : OutboundRequest → Except String UpstreamResponse :=
  fun _ => Except.error "ECONNREFUSED"

/-! Helper lemmas about the `Headers` operations. -/

theorem hGet_hDelete (h : List (String × String)) (m n : String) :
    hGet (hDelete h m) n = if n = m then none else hGet h n := by
  induction h with
  | nil => simp [hDelete, hGet]
  | cons p t ih =>
    by_cases hpm : p.1 = m
    · simp only [hDelete, if_pos hpm, ih]
      by_cases hnm : n = m
      · simp [hnm]
      · rw [if_neg hnm, if_neg hnm, hGet, if_neg (fun hnp => hnm (hnp.trans hpm))]
    · simp only [hDelete, if_neg hpm, hGet]
      by_cases hnp : n = p.1
      · rw [if_pos hnp, if_pos hnp, if_neg (fun hnm => hpm (hnp.symm.trans hnm))]
      · rw [if_neg hnp, if_neg hnp, ih]

theorem hGet_hSet (h : List (String × String)) (m v n : String) :
    hGet (hSet h m v) n = if n = m then some v else hGet h n := by
  induction h with
  | nil => simp [hSet, hGet]
  | cons p t ih =>
    by_cases hpm : p.1 = m
    · simp only [hSet, if_pos hpm, hGet]
      by_cases hnm : n = m
      · simp [hnm]
      · rw [if_neg hnm, if_neg hnm, hGet_hDelete, if_neg hnm,
          if_neg (fun hnp => hnm (hnp.trans hpm))]
    · simp only [hSet, if_neg hpm, hGet]
      by_cases hnp : n = p.1
      · rw [if_pos hnp, if_pos hnp, if_neg (fun hnm => hpm (hnp.symm.trans hnm))]
      · rw [if_neg hnp, if_neg hnp, ih]

theorem hGet_eq_none (h : List (String × String)) (n : String)
    (hn : ∀ p ∈ h, p.1 ≠ n) : hGet h n = none := by
  induction h with
  | nil => rfl
  | cons p t ih =>
    simp only [hGet]
    rw [if_neg (fun hnp => hn p (List.mem_cons_self p t) hnp.symm)]
    exact ih fun q hq => hn q (List.mem_cons_of_mem p hq)

theorem hGet_mem (h : List (String × String)) (n v : String)
    (hg : hGet h n = some v) : (n, v) ∈ h := by
  induction h with
  | nil => simp [hGet] at hg
  | cons p t ih =>
    simp only [hGet] at hg
    by_cases hnp : n = p.1
    · rw [if_pos hnp] at hg
      injection hg with hv
      exact List.mem_cons.mpr (Or.inl (by cases p; simp_all))
    · rw [if_neg hnp] at hg
      exact List.mem_cons_of_mem p (ih hg)

theorem keyLt_irrefl (a : String) : ¬ keyLt a a :=
  fun h => lt_irrefl a.toList h

theorem keyLt_asymm (a b : String) (h : keyLt a b) : ¬ keyLt b a :=
  fun h2 => absurd h (not_lt_of_gt h2)

theorem mem_hGet (h : List (String × String)) (n v : String)
    (wf : SortedKeys h) (hm : (n, v) ∈ h) : hGet h n = some v := by
  induction h with
  | nil => simp at hm
  | cons p t ih =>
    rcases List.mem_cons.mp hm with heq | htl
    · rw [← heq]; simp [hGet]
    · have hlt : keyLt p.1 n := (List.pairwise_cons.mp wf).1 (n, v) htl
      have hne : ¬ n = p.1 := fun he => keyLt_irrefl p.1 (by rwa [he] at hlt)
      simp only [hGet, if_neg hne]
      exact ih (List.pairwise_cons.mp wf).2 htl

/-! Helper lemmas about the target URL construction and the relay stream. -/

theorem foldl_appendParam (q : List (String × String)) (url : TargetURL) :
    q.foldl appendParam url
      = { url with query := url.query ++ q.filter (fun p => p.1 ≠ "_path") } := by
  induction q generalizing url with
  | nil => simp
  | cons p t ih =>
    simp only [List.foldl_cons, List.filter_cons]
    by_cases hp : p.1 = "_path"
    · simp [appendParam, hp, ih]
    · simp [appendParam, hp, ih]

theorem pipeTo_queue (body : List (List Nat)) (s : TransformStream) :
    (pipeTo body s).queue = s.queue ++ body := by
  induction body generalizing s with
  | nil => simp [pipeTo]
  | cons c t ih =>
    show (pipeTo t (tsWrite s c)).queue = s.queue ++ c :: t
    rw [ih]
    simp [tsWrite]

theorem relayBody_eq (body : List (List Nat)) : relayBody body = body := by
  simp [relayBody, readAllChunks, pipeTo_queue]

/-! The claim theorems. -/

/-- Claim C1: for a proxied request (non-OPTIONS, non-root), the outbound URL has the
fixed upstream origin, the unchanged inbound path, and the inbound query parameters
in original order (repeats preserved) with every `_path` parameter removed; and the
handler calls fetch on exactly that outbound request. -/
theorem proxy_c1 (request : InRequest) (u : ParsedURL)
    (hm : request.method ≠ "OPTIONS") (hu : request.urlParse = some u)
    (hp : u.pathname ≠ "/") :
    (outboundOf request u).url.origin = "https://generativelanguage.googleapis.com" ∧
    (outboundOf request u).url.pathname = u.pathname ∧
    (outboundOf request u).url.query
        = u.searchParams.filter (fun p => p.1 ≠ "_path") ∧
    ∀ fetchFn, handler request fetchFn =
      match fetchFn (outboundOf request u) with
      | Except.error e => Except.error (ProxyErr.fetch e)
      | Except.ok googleResponse => Except.ok (relayResponse googleResponse) := by
  refine ⟨?_, ?_, ?_, ?_⟩
  · simp [outboundOf, targetUrl, foldl_appendParam]
  · simp [outboundOf, targetUrl, foldl_appendParam]
  · simp [outboundOf, targetUrl, foldl_appendParam]
  · intro fetchFn
    simp [handler, hm, hu, hp]

theorem proxy_c1_witness :
    (outboundOf sampleRequest sampleURL).url.query
      = [("foo", "1"), ("bar", "2"), ("foo", "3")] := by
  have h := proxy_c1 sampleRequest sampleURL (by decide) rfl (by decide)
  exact h.2.2.1.trans (by decide)

/-- Claim C3: an upstream body of N chunks is relayed chunk for chunk: the outbound
body is the pass-through stream, its chunk sequence equals the upstream chunk
sequence, and reading it to completion yields the exact concatenation of the chunks
in order. -/
theorem proxy_c3 (googleResponse : UpstreamResponse) (chunks : List (List Nat))
    (hb : googleResponse.body = some chunks) :
    (relayResponse googleResponse).body = some (RespBody.stream (relayBody chunks)) ∧
    relayBody chunks = chunks ∧
    (relayBody chunks).flatten = chunks.flatten := by
  exact ⟨by simp [relayResponse, hb], relayBody_eq chunks, by rw [relayBody_eq]⟩

theorem proxy_c3_witness :
    (relayResponse sampleUpstream).body
        = some (RespBody.stream (relayBody [[104, 105], [33]])) ∧
    relayBody [[104, 105], [33]] = [[104, 105], [33]] ∧
    (relayBody [[104, 105], [33]]).flatten = [104, 105, 33] := by
  have h := proxy_c3 sampleUpstream [[104, 105], [33]] rfl
  exact ⟨h.1, h.2.1, h.2.2.trans (by decide)⟩

/-- Claim C5: an OPTIONS request is answered immediately with status 204, empty body
and exactly the three CORS headers, identically for every fetch function (hence with
no upstream call of any kind). -/
theorem proxy_c5 (request : InRequest) (hm : request.method = "OPTIONS") :
    ∀ fetchFn, handler request fetchFn =
      Except.ok { status := 204, statusText := "", headers := CORS_HEADERS,
                  body := none } := by
  intro fetchFn
  simp [handler, hm, preflightResponse]

theorem proxy_c5_witness :
    handler optionsRequest sampleFetchFail =
      Except.ok { status := 204, statusText := "", headers := CORS_HEADERS,
                  body := none } :=
  proxy_c5 optionsRequest rfl sampleFetchFail

/-- Claim C7: the relayed response copies the upstream status and status text
verbatim in both the body-absent and body-present cases, has no body when upstream
had none, and is exactly what the handler returns when fetch succeeds. -/
theorem proxy_c7 (googleResponse : UpstreamResponse) :
    (relayResponse googleResponse).status = googleResponse.status ∧
    (relayResponse googleResponse).statusText = googleResponse.statusText ∧
    (googleResponse.body = none → (relayResponse googleResponse).body = none) ∧
    ∀ request u fetchFn, request.method ≠ "OPTIONS" → request.urlParse = some u →
      u.pathname ≠ "/" → fetchFn (outboundOf request u) = Except.ok googleResponse →
      handler request fetchFn = Except.ok (relayResponse googleResponse) := by
  refine ⟨?_, ?_, ?_, ?_⟩
  · cases hb : googleResponse.body <;> simp [relayResponse, hb]
  · cases hb : googleResponse.body <;> simp [relayResponse, hb]
  · intro hb; simp [relayResponse, hb]
  · intro request u fetchFn hm hu hp hf
    simp [handler, hm, hu, hp, hf]

theorem proxy_c7_witness :
    (relayResponse sampleUpstreamNoBody).status = 500 ∧
    (relayResponse sampleUpstreamNoBody).statusText = "Internal Server Error" ∧
    (relayResponse sampleUpstreamNoBody).body = none := by
  have h := proxy_c7 sampleUpstreamNoBody
  exact ⟨h.1, h.2.1, h.2.2.1 rfl⟩

/-- Claim C9: when the inbound URL does not parse, or the upstream fetch fails for a
proxied request, the handler propagates the failure: the invocation ends in an error
and no response descriptor is produced. -/
theorem proxy_c9 (request : InRequest)
    (fetchFn : OutboundRequest → Except String UpstreamResponse)
    (hm : request.method ≠ "OPTIONS")
    (hfail : request.urlParse = none ∨
      ∃ u e, request.urlParse = some u ∧ u.pathname ≠ "/" ∧
        fetchFn (outboundOf request u) = Except.error e) :
    ∃ err, handler request fetchFn = Except.error err := by
  rcases hfail with hu | ⟨u, e, hu, hp, hf⟩
  · exact ⟨ProxyErr.urlParse, by simp [handler, hm, hu]⟩
  · exact ⟨ProxyErr.fetch e, by simp [handler, hm, hu, hp, hf]⟩

theorem proxy_c9_witness :
    (∃ err, handler badUrlRequest sampleFetch = Except.error err) ∧
    (∃ err, handler sampleRequest sampleFetchFail = Except.error err) :=
  ⟨proxy_c9 badUrlRequest sampleFetch (by decide) (Or.inl rfl),
   proxy_c9 sampleRequest sampleFetchFail (by decide)
     (Or.inr ⟨sampleURL, "ECONNREFUSED", rfl, by decide, rfl⟩)⟩

/-- Claim C4: the relayed response headers are the upstream headers with
`content-encoding`, `content-length` and `alt-svc` removed, the three CORS headers
set unconditionally to their fixed values (overwriting any upstream value of the
same name), and every other upstream header unchanged. -/
theorem proxy_c4 (upstream : List (String × String)) (n : String) :
    ((n = "content-encoding" ∨ n = "content-length" ∨ n = "alt-svc") →
      hGet (relayHeaders upstream) n = none) ∧
    (∀ v, (n, v) ∈ CORS_HEADERS → hGet (relayHeaders upstream) n = some v) ∧
    ((n ≠ "content-encoding" ∧ n ≠ "content-length" ∧ n ≠ "alt-svc" ∧
      n ≠ "access-control-allow-origin" ∧ n ≠ "access-control-allow-methods" ∧
      n ≠ "access-control-allow-headers") →
      hGet (relayHeaders upstream) n = hGet upstream n) := by
  have hrelay : relayHeaders upstream =
      hDelete (hDelete (hDelete
        (hSet (hSet (hSet upstream "access-control-allow-origin" "*")
            "access-control-allow-methods" "GET, POST, PUT, DELETE, OPTIONS")
          "access-control-allow-headers"
          "Content-Type, Authorization, x-goog-api-key, x-goog-api-client")
        "content-encoding") "content-length") "alt-svc" := rfl
  rw [hrelay]
  simp only [hGet_hDelete, hGet_hSet]
  refine ⟨?_, ?_, ?_⟩
  · rintro (rfl | rfl | rfl)
    · rw [if_neg (by decide), if_neg (by decide), if_pos rfl]
    · rw [if_neg (by decide), if_pos rfl]
    · rw [if_pos rfl]
  · intro v hv
    simp only [CORS_HEADERS, List.mem_cons, List.not_mem_nil, or_false,
      Prod.mk.injEq] at hv
    rcases hv with ⟨rfl, rfl⟩ | ⟨rfl, rfl⟩ | ⟨rfl, rfl⟩
    · rw [if_neg (by decide), if_neg (by decide), if_neg (by decide),
        if_neg (by decide), if_neg (by decide), if_pos rfl]
    · rw [if_neg (by decide), if_neg (by decide), if_neg (by decide),
        if_neg (by decide), if_pos rfl]
    · rw [if_neg (by decide), if_neg (by decide), if_neg (by decide), if_pos rfl]
  · rintro ⟨h1, h2, h3, h4, h5, h6⟩
    rw [if_neg h3, if_neg h2, if_neg h1, if_neg h6, if_neg h5, if_neg h4]

theorem proxy_c4_witness :
    hGet (relayHeaders sampleUpstream.headers) "x-custom" = some "keep" ∧
    hGet (relayHeaders sampleUpstream.headers) "content-encoding" = none ∧
    hGet (relayHeaders sampleUpstream.headers) "content-length" = none ∧
    hGet (relayHeaders sampleUpstream.headers) "alt-svc" = none ∧
    hGet (relayHeaders sampleUpstream.headers) "access-control-allow-origin"
      = some "*" := by
  refine ⟨?_, ?_, ?_, ?_, ?_⟩
  · rw [(proxy_c4 sampleUpstream.headers "x-custom").2.2 (by decide)]
    decide
  · exact (proxy_c4 sampleUpstream.headers "content-encoding").1 (Or.inl rfl)
  · exact (proxy_c4 sampleUpstream.headers "content-length").1 (Or.inr (Or.inl rfl))
  · exact (proxy_c4 sampleUpstream.headers "alt-svc").1 (Or.inr (Or.inr rfl))
  · exact (proxy_c4 sampleUpstream.headers "access-control-allow-origin").2.1 "*"
      (by decide)

/-- Claim C6: a non-OPTIONS request for the root path `/` is answered directly (for
every fetch function, hence without an upstream call) with status 200, content-type
`text/html;charset=UTF-8`, a body containing the literal substring
"Google PaLM/Gemini API Proxy on Netlify Edge", and all three CORS headers. -/
theorem proxy_c6 (request : InRequest) (u : ParsedURL)
    (hm : request.method ≠ "OPTIONS") (hu : request.urlParse = some u)
    (hp : u.pathname = "/") :
    (∀ fetchFn, handler request fetchFn = Except.ok rootResponse) ∧
    rootResponse.status = 200 ∧
    hGet rootResponse.headers "content-type" = some "text/html;charset=UTF-8" ∧
    rootResponse.body = some (RespBody.text blank_html) ∧
    listContainsSub "Google PaLM/Gemini API Proxy on Netlify Edge".toList
        blank_html.toList = true ∧
    ∀ p ∈ CORS_HEADERS, hGet rootResponse.headers p.1 = some p.2 := by
  refine ⟨?_, rfl, by decide, rfl, by decide, by decide⟩
  intro fetchFn
  simp [handler, hm, hu, hp]

theorem proxy_c6_witness :
    handler rootRequest sampleFetch = Except.ok rootResponse ∧
    rootResponse.status = 200 := by
  have h := proxy_c6 rootRequest { pathname := "/", searchParams := [] }
    (by decide) rfl rfl
  exact ⟨h.1 sampleFetch, h.2.1⟩

/-! `pickHeaders` unfolds to a filter of the (uniquely-keyed) header list. -/

theorem hSet_append (h : List (String × String)) (n v : String)
    (hn : ∀ p ∈ h, p.1 ≠ n) : hSet h n v = h ++ [(n, v)] := by
  induction h with
  | nil => rfl
  | cons p t ih =>
    simp only [hSet]
    rw [if_neg (hn p (List.mem_cons_self p t)),
      ih fun q hq => hn q (List.mem_cons_of_mem p hq)]
    rfl

theorem any_beq_iff (keys : List String) (n : String) :
    (keys.any (fun k => k == n) = true) ↔ n ∈ keys := by
  rw [List.any_eq_true]
  constructor
  · rintro ⟨k, hk, hkeq⟩
    exact (eq_of_beq hkeq) ▸ hk
  · intro hn
    exact ⟨n, hn, beq_self_eq_true n⟩

theorem pickHeaders_go (H : List (String × String)) (keys : List String)
    (t acc : List (String × String))
    (hmem : ∀ p ∈ t, hGet H p.1 = some p.2)
    (hnd : List.Pairwise (fun a b : String × String => a.1 ≠ b.1) t)
    (hdisj : ∀ p ∈ t, ∀ q ∈ acc, q.1 ≠ p.1) :
    t.foldl (pickStep H keys) acc
      = acc ++ t.filter (fun p => keys.any (fun k => k == p.1)) := by
  induction t generalizing acc with
  | nil => simp
  | cons p t ih =>
    simp only [List.foldl_cons, List.filter_cons]
    by_cases hk : keys.any (fun k => k == p.1) = true
    · have hstep : pickStep H keys acc p = acc ++ [p] := by
        simp only [pickStep, if_pos hk, hmem p (List.mem_cons_self p t)]
        exact hSet_append acc p.1 p.2 fun q hq => hdisj p (List.mem_cons_self p t) q hq
      rw [hstep, if_pos hk,
        ih (acc ++ [p])
          (fun q hq => hmem q (List.mem_cons_of_mem p hq))
          (List.pairwise_cons.mp hnd).2
          (fun r hr q hq => by
            rcases List.mem_append.mp hq with hqa | hqp
            · exact hdisj r (List.mem_cons_of_mem p hr) q hqa
            · rw [List.mem_singleton.mp hqp]
              exact (List.pairwise_cons.mp hnd).1 r hr)]
      simp
    · have hstep : pickStep H keys acc p = acc := by
        simp only [pickStep, if_neg hk]
      rw [hstep, if_neg hk]
      exact ih acc
        (fun q hq => hmem q (List.mem_cons_of_mem p hq))
        (List.pairwise_cons.mp hnd).2
        (fun r hr q hq => hdisj r (List.mem_cons_of_mem p hr) q hq)

theorem keys_ne_of_sorted (h : List (String × String)) (wf : SortedKeys h) :
    List.Pairwise (fun a b : String × String => a.1 ≠ b.1) h := by
  refine wf.imp ?_
  intro a b hab he
  rw [he] at hab
  exact keyLt_irrefl _ hab

theorem pickHeaders_eq_filter (h : List (String × String)) (keys : List String)
    (wf : SortedKeys h) :
    pickHeaders h keys = h.filter (fun p => keys.any (fun k => k == p.1)) := by
  have hmem : ∀ p ∈ h, hGet h p.1 = some p.2 := fun p hp =>
    mem_hGet h p.1 p.2 wf hp
  have hdisj : ∀ p ∈ h, ∀ q ∈ ([] : List (String × String)), q.1 ≠ p.1 := by
    simp
  simpa [pickHeaders] using
    pickHeaders_go h keys h [] hmem (keys_ne_of_sorted h wf) hdisj

theorem count_one_of_nodup_mem {α : Type} [BEq α] [LawfulBEq α] (l : List α) (a : α)
    (hnd : l.Nodup) (ha : a ∈ l) : l.count a = 1 := by
  induction l with
  | nil => simp at ha
  | cons b t ih =>
    obtain ⟨hbt, hndt⟩ := List.nodup_cons.mp hnd
    rcases List.mem_cons.mp ha with rfl | hat
    · have hz : t.count a = 0 := List.count_eq_zero.mpr hbt
      simp [List.count_cons, hz]
    · have hba : ¬ a = b := fun he => hbt (he ▸ hat)
      simp [List.count_cons, hba, ih hndt hat]

/-- Claim C2: the forwarded request headers contain only allow-listed names; every
inbound header with an allow-listed name is forwarded exactly once with its original
value, and no other inbound header is ever forwarded. -/
theorem proxy_c2 (h : List (String × String)) (wf : HeadersWF h) :
    (∀ p ∈ pickHeaders h allowKeys, p.1 ∈ allowKeys) ∧
    (∀ n v, (n, v) ∈ h → n ∈ allowKeys →
      List.count (n, v) (pickHeaders h allowKeys) = 1) ∧
    (∀ n v, (n, v) ∈ h → n ∉ allowKeys → (n, v) ∉ pickHeaders h allowKeys) := by
  obtain ⟨ws, _⟩ := wf
  rw [pickHeaders_eq_filter h allowKeys ws]
  have hnodup : h.Nodup := by
    refine (keys_ne_of_sorted h ws).imp ?_
    intro a b hab he
    exact hab (congrArg Prod.fst he)
  refine ⟨?_, ?_, ?_⟩
  · intro p hp
    exact (any_beq_iff allowKeys p.1).mp (List.mem_filter.mp hp).2
  · intro n v hin hall
    have hnodupf : (h.filter (fun p => allowKeys.any fun k => k == p.1)).Nodup :=
      hnodup.sublist (List.filter_sublist h)
    exact count_one_of_nodup_mem _ (n, v) hnodupf
      (List.mem_filter.mpr ⟨hin, (any_beq_iff allowKeys n).mpr hall⟩)
  · intro n v hin hall hmem
    exact hall ((any_beq_iff allowKeys n).mp (List.mem_filter.mp hmem).2)

theorem proxy_c2_witness :
    HeadersWF sampleHeaders ∧
    List.count ("content-type", "application/json")
      (pickHeaders sampleHeaders allowKeys) = 1 ∧
    ("cookie", "a=b") ∉ pickHeaders sampleHeaders allowKeys := by
  have hwf : HeadersWF sampleHeaders := by decide
  have h := proxy_c2 sampleHeaders hwf
  exact ⟨hwf,
    h.2.1 "content-type" "application/json" (by decide) (by decide),
    h.2.2 "cookie" "a=b" (by decide) (by decide)⟩

/-! Extensionality of sorted header lists, for the noninterference claim. -/

theorem hGet_filter (h : List (String × String)) (keys : List String) (n : String) :
    hGet (h.filter (fun p => keys.any fun k => k == p.1)) n
      = if keys.any (fun k => k == n) then hGet h n else none := by
  induction h with
  | nil =>
    simp only [List.filter_nil, hGet, ite_self]
  | cons p t ih =>
    rw [List.filter_cons]
    by_cases hq : (keys.any fun k => k == p.1) = true
    · rw [if_pos hq]
      simp only [hGet]
      by_cases hnp : n = p.1
      · rw [if_pos hnp, if_pos (by rw [hnp]; exact hq), if_pos hnp]
      · rw [if_neg hnp, ih, if_neg hnp]
    · rw [if_neg hq, ih]
      by_cases hqn : (keys.any fun k => k == n) = true
      · rw [if_pos hqn, if_pos hqn]
        simp only [hGet]
        rw [if_neg fun hnp => hq (by rw [← hnp]; exact hqn)]
      · rw [if_neg hqn, if_neg hqn]

theorem hGet_ext (l1 l2 : List (String × String))
    (s1 : SortedKeys l1) (s2 : SortedKeys l2)
    (hag : ∀ n, hGet l1 n = hGet l2 n) : l1 = l2 := by
  induction l1 generalizing l2 with
  | nil =>
    cases l2 with
    | nil => rfl
    | cons p t =>
      have hx := hag p.1
      simp [hGet] at hx
  | cons p t1 ih =>
    cases l2 with
    | nil =>
      have hx := hag p.1
      simp [hGet] at hx
    | cons q t2 =>
      obtain ⟨hp1, hs1⟩ := List.pairwise_cons.mp s1
      obtain ⟨hq1, hs2⟩ := List.pairwise_cons.mp s2
      have hkeys : p.1 = q.1 := by
        by_contra hne
        have h1 : hGet (p :: t1) p.1 = some p.2 := by simp [hGet]
        have h2 : hGet (q :: t2) p.1 = some p.2 := (hag p.1).symm.trans h1
        rw [hGet, if_neg hne] at h2
        have hlt2 : keyLt q.1 p.1 := hq1 (p.1, p.2) (hGet_mem t2 p.1 p.2 h2)
        have hne2 : ¬ q.1 = p.1 := fun he => hne he.symm
        have h3 : hGet (q :: t2) q.1 = some q.2 := by simp [hGet]
        have h4 : hGet (p :: t1) q.1 = some q.2 := (hag q.1).trans h3
        rw [hGet, if_neg hne2] at h4
        have hlt1 : keyLt p.1 q.1 := hp1 (q.1, q.2) (hGet_mem t1 q.1 q.2 h4)
        exact keyLt_asymm _ _ hlt1 hlt2
      have hvals : p.2 = q.2 := by
        have h1 : hGet (p :: t1) p.1 = some p.2 := by simp [hGet]
        have h2 : hGet (q :: t2) p.1 = some q.2 := by
          rw [hGet, if_pos hkeys]
        exact Option.some.inj ((h1.symm.trans (hag p.1)).trans h2)
      have htail : ∀ n, hGet t1 n = hGet t2 n := by
        intro n
        by_cases hn : n = p.1
        · rw [hn]
          rw [hGet_eq_none t1 p.1 fun r hr he => keyLt_irrefl p.1 (by
              have hx := hp1 r hr; rw [he] at hx; exact hx),
            hGet_eq_none t2 p.1 fun r hr he => keyLt_irrefl p.1 (by
              have hx := hq1 r hr; rw [he, ← hkeys] at hx; exact hx)]
        · have hx := hag n
          rw [hGet, hGet, if_neg hn, if_neg (by rw [← hkeys]; exact hn)] at hx
          exact hx
      have hpq : p = q := Prod.ext hkeys hvals
      rw [hpq, ih t2 hs1 hs2 htail]

/-- Claim C10: noninterference of filtered headers: two inbound requests agreeing on
method, URL, body and on the values of every allow-listed header, but differing
arbitrarily in all other headers, produce identical outbound upstream request
descriptors (and, for every fetch function, identical handler results). -/
theorem proxy_c10 (r1 r2 : InRequest) (u : ParsedURL)
    (hm : r1.method = r2.method)
    (hu1 : r1.urlParse = some u) (hu2 : r2.urlParse = some u)
    (hb : r1.body = r2.body)
    (w1 : HeadersWF r1.headers) (w2 : HeadersWF r2.headers)
    (hag : ∀ n ∈ allowKeys, hGet r1.headers n = hGet r2.headers n) :
    outboundOf r1 u = outboundOf r2 u ∧
    ∀ fetchFn, handler r1 fetchFn = handler r2 fetchFn := by
  have hpick : pickHeaders r1.headers allowKeys = pickHeaders r2.headers allowKeys := by
    rw [pickHeaders_eq_filter _ _ w1.1, pickHeaders_eq_filter _ _ w2.1]
    refine hGet_ext _ _ (w1.1.sublist (List.filter_sublist _))
      (w2.1.sublist (List.filter_sublist _)) ?_
    intro n
    rw [hGet_filter, hGet_filter]
    by_cases hn : allowKeys.any (fun k => k == n) = true
    · rw [if_pos hn, if_pos hn]
      exact hag n ((any_beq_iff allowKeys n).mp hn)
    · rw [if_neg hn, if_neg hn]
  have hout : outboundOf r1 u = outboundOf r2 u := by
    simp [outboundOf, hm, hb, hpick]
  refine ⟨hout, ?_⟩
  intro fetchFn
  simp only [handler, hm, hu1, hu2, hout]

theorem proxy_c10_witness :
    outboundOf sampleRequest sampleURL = outboundOf sampleRequest2 sampleURL ∧
    handler sampleRequest sampleFetch = handler sampleRequest2 sampleFetch := by
  have h := proxy_c10 sampleRequest sampleRequest2 sampleURL rfl rfl rfl rfl
    (by decide) (by decide) (by decide)
  exact ⟨h.1, h.2 sampleFetch⟩

/-- Claim C8: every invocation that terminates with a response realises exactly one
of the four outcomes, decided in the handler's priority order: OPTIONS preflight
first (even when the path is `/`), then the root-path static document, then the
headers-only response for a body-less upstream reply, then the streamed response.
`classifyRun` is a function, so the outcome characterised by the four
iff-clauses is unique. -/
theorem proxy_c8 (request : InRequest)
    (fetchFn : OutboundRequest → Except String UpstreamResponse)
    (resp : OutResponse) (hok : handler request fetchFn = Except.ok resp) :
    ∃ o, classifyRun request fetchFn = some o ∧
      (o = Outcome.preflight ↔ request.method = "OPTIONS") ∧
      (o = Outcome.rootPage ↔ request.method ≠ "OPTIONS" ∧
        ∃ u, request.urlParse = some u ∧ u.pathname = "/") ∧
      (o = Outcome.headersOnly ↔ request.method ≠ "OPTIONS" ∧
        ∃ u, request.urlParse = some u ∧ u.pathname ≠ "/" ∧
          ∃ r, fetchFn (outboundOf request u) = Except.ok r ∧ r.body = none) ∧
      (o = Outcome.streamed ↔ request.method ≠ "OPTIONS" ∧
        ∃ u, request.urlParse = some u ∧ u.pathname ≠ "/" ∧
          ∃ r, fetchFn (outboundOf request u) = Except.ok r ∧ r.body ≠ none) ∧
      (o = Outcome.preflight → resp = preflightResponse) ∧
      (o = Outcome.rootPage → resp = rootResponse) ∧
      (o = Outcome.headersOnly → resp.body = none) ∧
      (o = Outcome.streamed → ∃ chunks, resp.body = some (RespBody.stream chunks)) := by
  by_cases hm : request.method = "OPTIONS"
  · refine ⟨Outcome.preflight, by simp [classifyRun, hm], ?_, ?_, ?_, ?_, ?_, ?_, ?_, ?_⟩
    · simp [hm]
    · simp [hm]
    · simp [hm]
    · simp [hm]
    · intro _
      simp only [handler, if_pos hm, Except.ok.injEq] at hok
      exact hok.symm
    · simp
    · simp
    · simp
  · cases hul : request.urlParse with
    | none => simp [handler, hm, hul] at hok
    | some u =>
      by_cases hp : u.pathname = "/"
      · refine ⟨Outcome.rootPage, by simp [classifyRun, hm, hul, hp], ?_, ?_, ?_, ?_,
          ?_, ?_, ?_, ?_⟩
        · simp [hm]
        · simp [hm, hul, hp]
        · simp [hul, hp]
        · simp [hul, hp]
        · simp
        · intro _
          simp only [handler, if_neg hm, hul, if_pos hp, Except.ok.injEq] at hok
          exact hok.symm
        · simp
        · simp
      · cases hf : fetchFn (outboundOf request u) with
        | error e => simp [handler, hm, hul, hp, hf] at hok
        | ok googleResponse =>
          simp only [handler, if_neg hm, hul, if_neg hp, hf, Except.ok.injEq] at hok
          cases hbody : googleResponse.body with
          | none =>
            refine ⟨Outcome.headersOnly,
              by simp [classifyRun, hm, hul, hp, hf, hbody], ?_, ?_, ?_, ?_,
              ?_, ?_, ?_, ?_⟩
            · simp [hm]
            · simp [hm, hul, hp]
            · simp [hm, hul, hp, hf, hbody]
            · simp [hm, hul, hp, hf, hbody]
            · simp
            · simp
            · intro _
              rw [← hok]
              simp [relayResponse, hbody]
            · simp
          | some chunks =>
            refine ⟨Outcome.streamed,
              by simp [classifyRun, hm, hul, hp, hf, hbody], ?_, ?_, ?_, ?_,
              ?_, ?_, ?_, ?_⟩
            · simp [hm]
            · simp [hm, hul, hp]
            · simp [hm, hul, hp, hf, hbody]
            · simp [hm, hul, hp, hf, hbody]
            · simp
            · simp
            · simp
            · intro _
              rw [← hok]
              exact ⟨relayBody chunks, by simp [relayResponse, hbody]⟩

theorem proxy_c8_witness :
    ∃ o, classifyRun sampleRequest sampleFetch = some o ∧ o = Outcome.streamed := by
  obtain ⟨o, ho, hpre, hroot, hho, hstr, _, _, _, _⟩ :=
    proxy_c8 sampleRequest sampleFetch (relayResponse sampleUpstream) rfl
  exact ⟨o, ho, hstr.mpr ⟨by decide, sampleURL, rfl, by decide,
    sampleUpstream, rfl, by decide⟩⟩
